import Mathlib

/-!
Shallow embedding of the ADK core modules of the
Autonomous Data Compliance Officer multi-agent system:
`adk/core/task_queue.py`, `adk/core/message_bus.py`,
`adk/core/workflow_patterns.py` and `adk/core/state_manager.py`,
together with proofs of the specification claims about them.

Python dictionaries are modelled as association lists; the shared mutable
`Task` objects of `task_queue.py` (aliased between `_tasks`, `_queue` and
`_active_tasks`) are modelled by a single task table keyed by task id, the
queue and the active set holding ids only.
-/

namespace ADK

/-- `TaskStatus` enumeration from `task_queue.py`. -/
inductive TaskStatus where
  | pending
  | assigned
  | in_progress
  | completed
  | failed
  | cancelled
deriving DecidableEq, Repr

/-- `TaskPriority` enumeration from `task_queue.py`. -/
inductive TaskPriority where
  | low
  | medium
  | high
  | critical
deriving DecidableEq, Repr

/-- `TaskPriority.value` (the integer payload of the Python enum). -/
def TaskPriority.value : TaskPriority → Nat
  | .low => 1
  | .medium => 2
  | .high => 3
  | .critical => 4

/-- The `Task` dataclass from `task_queue.py` (timestamps, payload and result
are irrelevant to the claims and omitted; `task_id` is the table key). -/
structure Task where
  task_id : Nat
  task_type : String
  agent_type : String
  priority : TaskPriority
  status : TaskStatus
  assigned_to : Option String
  error : Option String
  retry_count : Nat
  max_retries : Nat
deriving DecidableEq, Repr

/-- The `TaskQueue` state: `tasks` is `_tasks`, `queue` is the FIFO
`asyncio.Queue` holding `(priority.value, task_id)` entries, `active` is the
key set of `_active_tasks` (in insertion order), `nextId` generates fresh
task ids (standing in for `uuid.uuid4`). -/
structure TaskQueue where
  tasks : List (Nat × Task)
  queue : List (Nat × Nat)
  active : List Nat
  maxConcurrent : Nat
  nextId : Nat
deriving DecidableEq, Repr

/-- `TaskQueue.__init__`. -/
def TaskQueue.init (maxConcurrent : Nat) : TaskQueue :=
  { tasks := [], queue := [], active := [], maxConcurrent := maxConcurrent, nextId := 0 }

/-- Association-list lookup for the task table (Python dict access). -/
def lookupTask (tasks : List (Nat × Task)) (id : Nat) : Option Task :=
  match tasks.find? (fun p => p.1 = id) with
  | some p => some p.2
  | none => none

/-- Update the task stored at key `id` (mutation of the shared Task object). -/
def updateTask (tasks : List (Nat × Task)) (id : Nat) (f : Task → Task) :
    List (Nat × Task) :=
  tasks.map (fun p => if p.1 = id then (p.1, f p.2) else p)

/-- Python dict key insertion for `_active_tasks[task_id] = task`:
a no-op on the key set when the key is already present, otherwise the key is
appended. -/
def dictInsert (id : Nat) (active : List Nat) : List Nat :=
  if id ∈ active then active else active ++ [id]

/-- `TaskQueue.enqueue`: create a PENDING task with a fresh id, record it in
`_tasks` and put `(priority.value, task_id)` on the queue. -/
def TaskQueue.enqueue (q : TaskQueue) (task_type agent_type : String)
    (priority : TaskPriority) (max_retries : Nat) : Nat × TaskQueue :=
  let t : Task :=
    { task_id := q.nextId, task_type := task_type, agent_type := agent_type,
      priority := priority, status := .pending, assigned_to := none,
      error := none, retry_count := 0, max_retries := max_retries }
  (q.nextId,
    { q with
      tasks := q.tasks ++ [(q.nextId, t)]
      queue := q.queue ++ [(priority.value, q.nextId)]
      nextId := q.nextId + 1 })

/-- Whether a queue entry matches the dequeue scan condition
`candidate_task.agent_type == agent_type and candidate_task.status == PENDING`. -/
def entryMatches (tasks : List (Nat × Task)) (agent_type : String)
    (e : Nat × Nat) : Bool :=
  match lookupTask tasks e.2 with
  | some t => t.agent_type = agent_type && t.status = .pending
  | none => false

/-- The dequeue scan loop: pop entries off the front, collecting non-matching
ones into `temp`, until a match is found or the queue is exhausted.
Returns `(temp, none)` or `(temp, some (match, rest))`. -/
def findMatch (tasks : List (Nat × Task)) (agent_type : String) :
    List (Nat × Nat) → List (Nat × Nat) × Option ((Nat × Nat) × List (Nat × Nat))
  | [] => ([], none)
  | e :: es =>
    if entryMatches tasks agent_type e then
      ([], some (e, es))
    else
      let r := findMatch tasks agent_type es
      (e :: r.1, r.2)

/-- `TaskQueue.dequeue`: return `none` at once when `len(_active_tasks) >=
max_concurrent`; otherwise scan the queue for the first PENDING task of the
requested agent type, re-append the scanned-but-unmatched entries at the back
of the queue, and on a match mark the task ASSIGNED and add it to
`_active_tasks`. -/
def TaskQueue.dequeue (q : TaskQueue) (agent_type : String) :
    Option Nat × TaskQueue :=
  if q.active.length ≥ q.maxConcurrent then
    (none, q)
  else
    match findMatch q.tasks agent_type q.queue with
    | (temp, none) => (none, { q with queue := temp })
    | (temp, some (e, rest)) =>
      (some e.2,
        { q with
          queue := rest ++ temp
          tasks := updateTask q.tasks e.2
            (fun t => { t with status := .assigned, assigned_to := some agent_type })
          active := dictInsert e.2 q.active })

/-- `TaskQueue.start_task`: mark an active task IN_PROGRESS. -/
def TaskQueue.start_task (q : TaskQueue) (id : Nat) : Bool × TaskQueue :=
  if id ∈ q.active then
    (true, { q with tasks := updateTask q.tasks id (fun t => { t with status := .in_progress }) })
  else
    (false, q)

/-- `TaskQueue.complete_task`: mark an active task COMPLETED and delete it
from `_active_tasks`. -/
def TaskQueue.complete_task (q : TaskQueue) (id : Nat) : Bool × TaskQueue :=
  if id ∈ q.active then
    (true,
      { q with
        tasks := updateTask q.tasks id (fun t => { t with status := .completed })
        active := q.active.filter (fun x => x ≠ id) })
  else
    (false, q)

/-- `TaskQueue.fail_task`: for an active task, record the error and increment
`retry_count`; when the incremented count is still below `max_retries`, reset
the task to PENDING, clear the assignment and re-queue it with its stored
priority; otherwise leave it FAILED and delete it from `_active_tasks`. -/
def TaskQueue.fail_task (q : TaskQueue) (id : Nat) (err : String) :
    Bool × TaskQueue :=
  if id ∈ q.active then
    match lookupTask q.tasks id with
    | none => (true, q)
    | some t =>
      let t1 : Task :=
        { t with
          status := .failed
          error := some err
          retry_count := t.retry_count + 1 }
      if t1.retry_count < t1.max_retries then
        let t2 : Task := { t1 with status := .pending, assigned_to := none }
        (true,
          { q with
            tasks := updateTask q.tasks id (fun _ => t2)
            queue := q.queue ++ [(t2.priority.value, id)] })
      else
        (true,
          { q with
            tasks := updateTask q.tasks id (fun _ => t1)
            active := q.active.filter (fun x => x ≠ id) })
  else
    (false, q)

/-- The operations a client can perform on a `TaskQueue`. -/
inductive QOp where
  | enqueue (task_type agent_type : String) (priority : TaskPriority) (max_retries : Nat)
  | dequeue (agent_type : String)
  | start (id : Nat)
  | complete (id : Nat)
  | fail (id : Nat) (err : String)
deriving DecidableEq, Repr

/-- One operation applied to the queue state. -/
def stepQ (q : TaskQueue) : QOp → TaskQueue
  | .enqueue tt at_ p mr => (q.enqueue tt at_ p mr).2
  | .dequeue at_ => (q.dequeue at_).2
  | .start id => (q.start_task id).2
  | .complete id => (q.complete_task id).2
  | .fail id err => (q.fail_task id err).2

/-- Run a list of operations from a state. -/
def runQ (q : TaskQueue) (ops : List QOp) : TaskQueue :=
  ops.foldl stepQ q

/-- The number of tasks currently in status ASSIGNED or IN_PROGRESS. -/
def countAIP (q : TaskQueue) : Nat :=
  (q.tasks.filter (fun p => p.2.status = .assigned ∨ p.2.status = .in_progress)).length

/-- State invariant of the task queue maintained by every operation. -/
structure InvQ (q : TaskQueue) : Prop where
  keysNodup : (q.tasks.map Prod.fst).Nodup
  keysLt : ∀ p ∈ q.tasks, p.1 < q.nextId
  activeNodup : q.active.Nodup
  activeLen : q.active.length ≤ q.maxConcurrent
  aipActive : ∀ p ∈ q.tasks,
    (p.2.status = TaskStatus.assigned ∨ p.2.status = TaskStatus.in_progress) →
    p.1 ∈ q.active
  failedInactive : ∀ p ∈ q.tasks, p.2.status = TaskStatus.failed → p.1 ∉ q.active

/-- A task that reached terminal FAILED: recorded FAILED in the table, gone
from the active set, with an id the generator will never hand out again. -/
def deadTask (q : TaskQueue) (id : Nat) : Prop :=
  (∃ t, lookupTask q.tasks id = some t ∧ t.status = TaskStatus.failed) ∧
  id ∉ q.active ∧ id < q.nextId

/-- `MessageBus._subscribers` from `message_bus.py`: a `defaultdict(list)`
mapping agent ids to their handler lists, modelled as an association list in
key-insertion order; handlers are identified by numeric ids. -/
structure MessageBus where
  subscribers : List (String × List Nat)
deriving DecidableEq, Repr

/-- `MessageBus.__init__`. -/
def MessageBus.init : MessageBus := ⟨[]⟩

/-- `MessageBus.subscribe`: `self._subscribers[agent_id].append(handler)` -
the defaultdict creates the entry on first access. -/
def subscribeMB (bus : MessageBus) (agent_id : String) (h : Nat) : MessageBus :=
  if bus.subscribers.any (fun p => p.1 = agent_id) then
    ⟨bus.subscribers.map (fun p => if p.1 = agent_id then (p.1, p.2 ++ [h]) else p)⟩
  else
    ⟨bus.subscribers ++ [(agent_id, [h])]⟩

/-- `MessageBus.unsubscribe`: remove the first matching handler of a present
key; absent handlers (`ValueError`) and absent keys are ignored. -/
def unsubscribeMB (bus : MessageBus) (agent_id : String) (h : Nat) : MessageBus :=
  if bus.subscribers.any (fun p => p.1 = agent_id) then
    ⟨bus.subscribers.map (fun p => if p.1 = agent_id then (p.1, p.2.erase h) else p)⟩
  else bus

/-- The handler list registered for an agent id (empty when unsubscribed). -/
def handlersOf (bus : MessageBus) (agent_id : String) : List Nat :=
  match bus.subscribers.find? (fun p => p.1 = agent_id) with
  | some p => p.2
  | none => []

/-- `MessageBus._deliver_to_subscribers`: the (agent, handler) invocations
performed for one agent id, in handler registration order (a handler that
raises is caught and still counts as invoked). -/
def deliverTo (bus : MessageBus) (agent_id : String) : List (String × Nat) :=
  (handlersOf bus agent_id).map (fun h => (agent_id, h))

/-- The broadcast loop of `MessageBus.publish`: walk all subscriber keys in
order and deliver to each. -/
def broadcastDeliver (bus : MessageBus) : List (String × List Nat) → List (String × Nat)
  | [] => []
  | p :: ps => deliverTo bus p.1 ++ broadcastDeliver bus ps

/-- `MessageBus.publish`: the full sequence of handler invocations.
With a receiver, only that receiver is delivered to (when subscribed);
without one, every subscriber key is delivered to. -/
def publishTrace (bus : MessageBus) (receiver : Option String) : List (String × Nat) :=
  match receiver with
  | some r =>
    if bus.subscribers.any (fun p => p.1 = r) then deliverTo bus r else []
  | none => broadcastDeliver bus bus.subscribers

/-- Subscription operations. -/
inductive BOp where
  | subscribe (agent_id : String) (h : Nat)
  | unsubscribe (agent_id : String) (h : Nat)
deriving DecidableEq, Repr

def stepB (bus : MessageBus) : BOp → MessageBus
  | .subscribe a h => subscribeMB bus a h
  | .unsubscribe a h => unsubscribeMB bus a h

def runB (ops : List BOp) : MessageBus :=
  ops.foldl stepB MessageBus.init

/-- Python/JSON values exchanged between agents and persisted by the state
manager. -/
inductive Val where
  | null
  | bool (b : Bool)
  | int (n : Int)
  | str (s : String)
  | list (xs : List Val)
  | dict (xs : List (String × Val))

/-- An agent as seen by `workflow_patterns.py`: a name and a `process`
method that either returns a result or raises (modelled as `Except` with
the exception text). -/
structure Agent where
  name : String
  process : Val → Except String Val

/-- The input-preparation rule of `execute_sequential`: without a (truthy)
`input_key`, a mapping passes through and anything else is wrapped as
`{"input": current}`. -/
def passThrough (cur : Val) : Val :=
  match cur with
  | Val.dict xs => Val.dict xs
  | v => Val.dict [("input", v)]

/-- `agent_input` of one sequential step: a truthy `input_key` (a non-empty
string) wraps the current value as `{input_key: current}`. -/
def wrapInput (input_key : Option String) (cur : Val) : Val :=
  match input_key with
  | some k => if k = "" then passThrough cur else Val.dict [(k, cur)]
  | none => passThrough cur

/-- One step record of the sequential envelope (`duration` omitted). -/
structure StepRec where
  agent : String
  result : Val

/-- The loop body of `execute_sequential` from the current value: runs the
remaining `(agent, input_key)` steps, threading each result into the next
step; an exception aborts everything. -/
def execSeqFrom (steps : List (Agent × Option String)) (cur : Val) :
    Except String (List StepRec × Val) :=
  match steps with
  | [] => Except.ok ([], cur)
  | (a, k) :: rest =>
    match a.process (wrapInput k cur) with
    | Except.error e => Except.error e
    | Except.ok r =>
      match execSeqFrom rest r with
      | Except.error e => Except.error e
      | Except.ok (recs, fin) => Except.ok ({ agent := a.name, result := r } :: recs, fin)

/-- The sequential envelope: step records plus `final_result`. -/
structure SeqEnvelope where
  steps : List StepRec
  final_result : Val

/-- `WorkflowPatterns.execute_sequential`. -/
def execute_sequential (steps : List (Agent × Option String)) (initial : Val) :
    Except String SeqEnvelope :=
  match execSeqFrom steps initial with
  | Except.error e => Except.error e
  | Except.ok (recs, fin) => Except.ok { steps := recs, final_result := fin }

/-- A failure record of the parallel envelope. -/
structure FailRec where
  agent : String
  error : String

/-- The parallel envelope (`duration` omitted). -/
structure ParEnvelope where
  successful : List StepRec
  failed : List FailRec

/-- The result-partitioning loop of `execute_parallel` over the gathered
per-branch outcomes. -/
def partitionResults : List (Agent × Except String Val) →
    List StepRec × List FailRec
  | [] => ([], [])
  | (a, Except.ok r) :: rest =>
    let p := partitionResults rest
    ({ agent := a.name, result := r } :: p.1, p.2)
  | (a, Except.error e) :: rest =>
    let p := partitionResults rest
    (p.1, { agent := a.name, error := e } :: p.2)

/-- `WorkflowPatterns.execute_parallel`: each branch is the agent applied to
its own input (`asyncio.gather` with `return_exceptions=True` collects every
branch outcome independently); outcomes are partitioned into `successful`
and `failed`. -/
def execute_parallel (agents : List Agent) (inputs : List Val) : ParEnvelope :=
  let results := (agents.zip inputs).map (fun p => (p.1, p.1.process p.2))
  let part := partitionResults results
  { successful := part.1, failed := part.2 }

/-- The critic validation as read by `execute_loop`: the `quality_scores`
values, `is_valid` (defaulting to false when absent), and the
`recommendations` passed back as feedback. -/
structure CriticOutput where
  quality_scores : List Rat
  is_valid : Bool
  recommendations : Val

/-- `avg_quality`: the mean of the scores, `0.0` for an empty dict. -/
def avgQuality (qs : List Rat) : Rat :=
  if qs.isEmpty then 0 else qs.sum / qs.length

/-- One entry of `iteration_history` (the raw validation dict is summarised
by its two consumed fields). -/
structure IterRec where
  iteration : Nat
  agent_result : Val
  quality_score : Rat
  is_valid : Bool

/-- The agent input across loop iterations: the initial input, or the
initial input merged with the critic feedback and the previous attempt. -/
inductive LoopInput where
  | initial
  | retry (recommendations : Val) (previous : Val)

/-- The loop envelope (`warning` is the presence of the exhaustion tag). -/
structure LoopResult where
  iterations : Nat
  final_result : Val
  final_quality : Rat
  history : List IterRec
  warning : Bool

/-- `max(iteration_history, key=quality_score)`: Python `max` keeps the
first maximal element. -/
def bestIter (h : IterRec) (t : List IterRec) : IterRec :=
  t.foldl (fun acc e => if acc.quality_score < e.quality_score then e else acc) h

/-- The acceptance test `is_valid and avg_quality >= quality_threshold`. -/
def accepts (threshold : Rat) (e : IterRec) : Bool :=
  e.is_valid && decide (threshold ≤ e.quality_score)

/-- The `for iteration in range(max_iterations)` loop of `execute_loop`:
`fuel` is the number of remaining iterations and `iter` the number already
executed. On exhaustion the best attempt is returned with the warning tag;
`max()` over an empty history raises (modelled as `none`). -/
def loopGo (agent : LoopInput → Nat → Val) (critic : Val → Nat → CriticOutput)
    (threshold : Rat) (maxIter : Nat) :
    Nat → Nat → LoopInput → List IterRec → Option LoopResult
  | 0, _, _, hist =>
    match hist with
    | [] => none
    | h :: t =>
      some { iterations := maxIter, final_result := (bestIter h t).agent_result,
             final_quality := (bestIter h t).quality_score, history := h :: t,
             warning := true }
  | fuel + 1, iter, cur, hist =>
    let r := agent cur iter
    let v := critic r iter
    let q := avgQuality v.quality_scores
    let e : IterRec :=
      { iteration := iter + 1, agent_result := r, quality_score := q,
        is_valid := v.is_valid }
    if v.is_valid && decide (threshold ≤ q) then
      some { iterations := iter + 1, final_result := r, final_quality := q,
             history := hist ++ [e], warning := false }
    else
      loopGo agent critic threshold maxIter fuel (iter + 1)
        (if fuel = 0 then cur else LoopInput.retry v.recommendations r)
        (hist ++ [e])

/-- `WorkflowPatterns.execute_loop`. -/
def execute_loop (agent : LoopInput → Nat → Val)
    (critic : Val → Nat → CriticOutput) (threshold : Rat) (maxIter : Nat) :
    Option LoopResult :=
  loopGo agent critic threshold maxIter maxIter 0 LoopInput.initial []

/-- A stored entry `{"value": v, "updated_at": ts}` of `state_manager.py`. -/
structure StateEntry where
  value : Val
  updated_at : String

/-- The in-memory state of `StateManager`. `ctxAuto` records whether
`_agent_contexts` is still the `defaultdict(dict)` built by `__init__`
(auto-creating missing agent entries) or the plain dict assigned by a
successful `_load_state`. -/
structure StateManager where
  state : List (String × StateEntry)
  agent_contexts : List (String × List (String × StateEntry))
  task_states : List (String × Val)
  ctxAuto : Bool

/-- A fresh store with no pre-existing snapshot file. -/
def StateManager.fresh : StateManager :=
  { state := [], agent_contexts := [], task_states := [], ctxAuto := true }

/-- Python dict assignment: replace the value of a present key in place,
append a new key at the end. -/
def assocSet {α : Type} (l : List (String × α)) (k : String) (v : α) :
    List (String × α) :=
  if l.any (fun p => p.1 = k) then
    l.map (fun p => if p.1 = k then (k, v) else p)
  else l ++ [(k, v)]

/-- Python dict lookup. -/
def assocGet {α : Type} (l : List (String × α)) (k : String) : Option α :=
  match l.find? (fun p => p.1 = k) with
  | some p => some p.2
  | none => none

/-- `StateManager.set_state`: store `{"value": value, "updated_at": now}`
under `key` and persist. -/
def set_state (sm : StateManager) (key : String) (value : Val) (now : String) :
    StateManager :=
  { sm with state := assocSet sm.state key { value := value, updated_at := now } }

/-- `StateManager.get_state`: the stored entry's `"value"` field, or the
caller-supplied default when the key is absent. -/
def get_state (sm : StateManager) (key : String) (dflt : Val) : Val :=
  match assocGet sm.state key with
  | some entry => entry.value
  | none => dflt

/-- `StateManager.delete_state`. -/
def delete_state (sm : StateManager) (key : String) : StateManager :=
  if sm.state.any (fun p => p.1 = key) then
    { sm with state := sm.state.filter (fun p => p.1 ≠ key) }
  else sm

/-- The JSON snapshot `_save_state` writes: the three tables. The stored
values are JSON-serializable, so `json.dump`/`json.load` round-trips them
unchanged. -/
structure SavedData where
  state : List (String × StateEntry)
  agent_contexts : List (String × List (String × StateEntry))
  task_states : List (String × Val)

/-- `StateManager._save_state` (the persisted content). -/
def snapshot (sm : StateManager) : SavedData :=
  { state := sm.state, agent_contexts := sm.agent_contexts,
    task_states := sm.task_states }

/-- `__init__` + `_load_state` over an existing snapshot file: the loaded
`_agent_contexts` is a plain dict, not a `defaultdict`. -/
def loadState (d : SavedData) : StateManager :=
  { state := d.state, agent_contexts := d.agent_contexts,
    task_states := d.task_states, ctxAuto := false }

/-- `StateManager.set_agent_context`:
`self._agent_contexts[agent_id][key] = {...}`; the first subscript raises
`KeyError` (modelled as `none`) when the agent id is missing and the
mapping no longer auto-creates entries. -/
def set_agent_context (sm : StateManager) (agent_id key : String) (value : Val)
    (now : String) : Option StateManager :=
  match assocGet sm.agent_contexts agent_id with
  | some ctx =>
    let entry : StateEntry := { value := value, updated_at := now }
    let ctx' := assocSet ctx key entry
    some { sm with agent_contexts := assocSet sm.agent_contexts agent_id ctx' }
  | none =>
    if sm.ctxAuto then
      some { sm with agent_contexts := sm.agent_contexts ++
              [(agent_id, [(key, { value := value, updated_at := now })])] }
    else none

theorem updateTask_map_fst (ts : List (Nat × Task)) (id : Nat) (f : Task → Task) :
    (updateTask ts id f).map Prod.fst = ts.map Prod.fst := by
  induction ts with
  | nil => rfl
  | cons p ps ih =>
    simp only [updateTask, List.map_cons] at ih ⊢
    by_cases h : p.1 = id
    · simpa [h] using ih
    · simpa [h] using ih

theorem mem_updateTask {ts : List (Nat × Task)} {id : Nat} {f : Task → Task}
    {p : Nat × Task} (h : p ∈ updateTask ts id f) :
    ∃ p' ∈ ts, p.1 = p'.1 ∧
      ((p'.1 = id ∧ p.2 = f p'.2) ∨ (p'.1 ≠ id ∧ p.2 = p'.2)) := by
  rw [updateTask, List.mem_map] at h
  obtain ⟨a, ha, hae⟩ := h
  by_cases hk : a.1 = id
  · refine ⟨a, ha, ?_, Or.inl ⟨hk, ?_⟩⟩ <;> simp [hk] at hae <;> simp [← hae, hk]
  · refine ⟨a, ha, ?_, Or.inr ⟨hk, ?_⟩⟩ <;> simp [hk] at hae <;> simp [← hae]

theorem mem_dictInsert {x id : Nat} {l : List Nat} :
    x ∈ dictInsert id l ↔ x = id ∨ x ∈ l := by
  unfold dictInsert
  split
  · constructor
    · exact fun h => Or.inr h
    · rintro (rfl | h) <;> assumption
  · simp [List.mem_append, or_comm]

theorem dictInsert_nodup {id : Nat} {l : List Nat} (h : l.Nodup) :
    (dictInsert id l).Nodup := by
  unfold dictInsert
  split
  · exact h
  · exact h.append (List.nodup_singleton id) (by
      intro x hx hx1
      simp at hx1
      subst hx1
      exact absurd hx (by assumption))

theorem dictInsert_length_le {id : Nat} {l : List Nat} :
    (dictInsert id l).length ≤ l.length + 1 := by
  unfold dictInsert
  split
  · omega
  · simp

theorem countAIP_le_active {q : TaskQueue} (inv : InvQ q) :
    countAIP q ≤ q.active.length := by
  have hnd : ((q.tasks.filter
      (fun p => p.2.status = TaskStatus.assigned ∨ p.2.status = TaskStatus.in_progress)).map
        Prod.fst).Nodup :=
    inv.keysNodup.sublist ((List.filter_sublist q.tasks).map Prod.fst)
  have hsub : (q.tasks.filter
      (fun p => p.2.status = TaskStatus.assigned ∨ p.2.status = TaskStatus.in_progress)).map
        Prod.fst ⊆ q.active := by
    intro x hx
    rw [List.mem_map] at hx
    obtain ⟨p, hp, rfl⟩ := hx
    rw [List.mem_filter] at hp
    exact inv.aipActive p hp.1 (by simpa using hp.2)
  calc countAIP q
      = ((q.tasks.filter
          (fun p => p.2.status = TaskStatus.assigned ∨ p.2.status = TaskStatus.in_progress)).map
            Prod.fst).length := by
        simp [countAIP]
    _ ≤ q.active.length := (hnd.subperm hsub).length_le

theorem invQ_init (m : Nat) : InvQ (TaskQueue.init m) := by
  constructor <;> simp [TaskQueue.init]

theorem invQ_enqueue {q : TaskQueue} (inv : InvQ q) (tt at_ : String)
    (pr : TaskPriority) (mr : Nat) : InvQ (q.enqueue tt at_ pr mr).2 := by
  constructor <;> try dsimp only
  · simp only [TaskQueue.enqueue, List.map_append, List.map_cons, List.map_nil]
    refine inv.keysNodup.append (List.nodup_singleton _) ?_
    intro x hx hx'
    simp only [List.mem_singleton] at hx'
    subst hx'
    rw [List.mem_map] at hx
    obtain ⟨p, hp, hpx⟩ := hx
    exact absurd (hpx ▸ inv.keysLt p hp) (lt_irrefl _)
  · intro p hp
    simp only [TaskQueue.enqueue, List.mem_append, List.mem_singleton] at hp
    rcases hp with hp | hp
    · exact Nat.lt_succ_of_lt (inv.keysLt p hp)
    · subst hp; exact Nat.lt_succ_self _
  · exact inv.activeNodup
  · exact inv.activeLen
  · intro p hp hs
    simp only [TaskQueue.enqueue, List.mem_append, List.mem_singleton] at hp
    rcases hp with hp | hp
    · exact inv.aipActive p hp hs
    · subst hp; simp at hs
  · intro p hp hs
    simp only [TaskQueue.enqueue, List.mem_append, List.mem_singleton] at hp
    rcases hp with hp | hp
    · exact inv.failedInactive p hp hs
    · subst hp; simp at hs

theorem invQ_dequeue {q : TaskQueue} (inv : InvQ q) (at_ : String) :
    InvQ (q.dequeue at_).2 := by
  rw [TaskQueue.dequeue]
  split
  · exact inv
  · rename_i hlen
    rcases hfm : findMatch q.tasks at_ q.queue with ⟨temp, mo⟩
    rcases mo with _ | ⟨e, rest⟩
    · exact ⟨inv.keysNodup, inv.keysLt, inv.activeNodup, inv.activeLen,
        inv.aipActive, inv.failedInactive⟩
    · dsimp only
      constructor <;> try dsimp only
      · rw [updateTask_map_fst]; exact inv.keysNodup
      · intro p hp
        obtain ⟨p', hp', hk, _⟩ := mem_updateTask hp
        exact hk ▸ inv.keysLt p' hp'
      · exact dictInsert_nodup inv.activeNodup
      · calc (dictInsert e.2 q.active).length ≤ q.active.length + 1 :=
            dictInsert_length_le
          _ ≤ q.maxConcurrent := by omega
      · intro p hp _
        obtain ⟨p', hp', hk, hcase⟩ := mem_updateTask hp
        rcases hcase with ⟨hid, _⟩ | ⟨hid, hval⟩
        · rw [hk, hid]; exact mem_dictInsert.mpr (Or.inl rfl)
        · rw [hk]
          exact mem_dictInsert.mpr (Or.inr (inv.aipActive p' hp' (by
            rename_i hs
            rw [hval] at hs
            exact hs)))
      · intro p hp hs
        obtain ⟨p', hp', hk, hcase⟩ := mem_updateTask hp
        rcases hcase with ⟨hid, hval⟩ | ⟨hid, hval⟩
        · rw [hval] at hs; simp at hs
        · rw [hk]
          intro hmem
          rcases mem_dictInsert.mp hmem with h1 | h1
          · exact hid h1
          · rw [hval] at hs
            exact inv.failedInactive p' hp' hs h1

theorem invQ_start {q : TaskQueue} (inv : InvQ q) (id : Nat) :
    InvQ (q.start_task id).2 := by
  rw [TaskQueue.start_task]
  split
  · rename_i hid
    dsimp only
    constructor <;> try dsimp only
    · rw [updateTask_map_fst]; exact inv.keysNodup
    · intro p hp
      obtain ⟨p', hp', hk, _⟩ := mem_updateTask hp
      exact hk ▸ inv.keysLt p' hp'
    · exact inv.activeNodup
    · exact inv.activeLen
    · intro p hp _
      obtain ⟨p', hp', hk, hcase⟩ := mem_updateTask hp
      rcases hcase with ⟨hid', _⟩ | ⟨hid', hval⟩
      · rw [hk, hid']; exact hid
      · rw [hk]
        exact inv.aipActive p' hp' (by
          rename_i hs
          rw [hval] at hs
          exact hs)
    · intro p hp hs
      obtain ⟨p', hp', hk, hcase⟩ := mem_updateTask hp
      rcases hcase with ⟨hid', hval⟩ | ⟨hid', hval⟩
      · rw [hval] at hs; simp at hs
      · rw [hval] at hs
        exact hk ▸ inv.failedInactive p' hp' hs
  · exact inv

theorem mem_filter_ne {x id : Nat} {l : List Nat} :
    x ∈ l.filter (fun y => y ≠ id) ↔ x ∈ l ∧ x ≠ id := by
  simp [List.mem_filter]

theorem invQ_complete {q : TaskQueue} (inv : InvQ q) (id : Nat) :
    InvQ (q.complete_task id).2 := by
  rw [TaskQueue.complete_task]
  split
  · dsimp only
    constructor <;> try dsimp only
    · rw [updateTask_map_fst]; exact inv.keysNodup
    · intro p hp
      obtain ⟨p', hp', hk, _⟩ := mem_updateTask hp
      exact hk ▸ inv.keysLt p' hp'
    · exact inv.activeNodup.filter _
    · exact le_trans (List.length_filter_le _ _) inv.activeLen
    · intro p hp hs
      obtain ⟨p', hp', hk, hcase⟩ := mem_updateTask hp
      rcases hcase with ⟨hid', hval⟩ | ⟨hid', hval⟩
      · rw [hval] at hs; simp at hs
      · rw [hval] at hs
        rw [hk]
        exact mem_filter_ne.mpr ⟨inv.aipActive p' hp' hs, hk ▸ hid'⟩
    · intro p hp hs
      obtain ⟨p', hp', hk, hcase⟩ := mem_updateTask hp
      rcases hcase with ⟨hid', hval⟩ | ⟨hid', hval⟩
      · rw [hval] at hs; simp at hs
      · rw [hval] at hs
        rw [hk]
        intro hmem
        exact inv.failedInactive p' hp' hs (mem_filter_ne.mp hmem).1
  · exact inv

theorem invQ_fail {q : TaskQueue} (inv : InvQ q) (id : Nat) (err : String) :
    InvQ (q.fail_task id err).2 := by
  rw [TaskQueue.fail_task]
  split
  · rename_i hid
    rcases hlk : lookupTask q.tasks id with _ | t
    · exact inv
    · dsimp only
      split
      · dsimp only
        constructor <;> try dsimp only
        · rw [updateTask_map_fst]; exact inv.keysNodup
        · intro p hp
          obtain ⟨p', hp', hk, _⟩ := mem_updateTask hp
          exact hk ▸ inv.keysLt p' hp'
        · exact inv.activeNodup
        · exact inv.activeLen
        · intro p hp hs
          obtain ⟨p', hp', hk, hcase⟩ := mem_updateTask hp
          rcases hcase with ⟨hid', hval⟩ | ⟨hid', hval⟩
          · rw [hval] at hs; simp at hs
          · rw [hval] at hs
            exact hk ▸ inv.aipActive p' hp' hs
        · intro p hp hs
          obtain ⟨p', hp', hk, hcase⟩ := mem_updateTask hp
          rcases hcase with ⟨hid', hval⟩ | ⟨hid', hval⟩
          · rw [hval] at hs; simp at hs
          · rw [hval] at hs
            exact hk ▸ inv.failedInactive p' hp' hs
      · dsimp only
        constructor <;> try dsimp only
        · rw [updateTask_map_fst]; exact inv.keysNodup
        · intro p hp
          obtain ⟨p', hp', hk, _⟩ := mem_updateTask hp
          exact hk ▸ inv.keysLt p' hp'
        · exact inv.activeNodup.filter _
        · exact le_trans (List.length_filter_le _ _) inv.activeLen
        · intro p hp hs
          obtain ⟨p', hp', hk, hcase⟩ := mem_updateTask hp
          rcases hcase with ⟨hid', hval⟩ | ⟨hid', hval⟩
          · rw [hval] at hs; simp at hs
          · rw [hval] at hs
            rw [hk]
            exact mem_filter_ne.mpr ⟨inv.aipActive p' hp' hs, hk ▸ hid'⟩
        · intro p hp hs
          obtain ⟨p', hp', hk, hcase⟩ := mem_updateTask hp
          rcases hcase with ⟨hid', hval⟩ | ⟨hid', hval⟩
          · rw [hk, hid']
            intro hmem
            exact absurd rfl (mem_filter_ne.mp hmem).2
          · rw [hval] at hs
            rw [hk]
            intro hmem
            exact inv.failedInactive p' hp' hs (mem_filter_ne.mp hmem).1
  · exact inv

theorem invQ_step {q : TaskQueue} (inv : InvQ q) (op : QOp) : InvQ (stepQ q op) := by
  cases op with
  | enqueue tt at_ pr mr => exact invQ_enqueue inv tt at_ pr mr
  | dequeue at_ => exact invQ_dequeue inv at_
  | start id => exact invQ_start inv id
  | complete id => exact invQ_complete inv id
  | fail id err => exact invQ_fail inv id err

theorem invQ_run {q : TaskQueue} (inv : InvQ q) (ops : List QOp) :
    InvQ (runQ q ops) := by
  induction ops generalizing q with
  | nil => exact inv
  | cons op ops ih => exact ih (invQ_step inv op)

theorem findMatch_none {tasks : List (Nat × Task)} {at_ : String}
    {l temp : List (Nat × Nat)} (h : findMatch tasks at_ l = (temp, none)) :
    temp = l ∧ ∀ e ∈ l, entryMatches tasks at_ e = false := by
  induction l generalizing temp with
  | nil =>
    simp [findMatch] at h
    subst h
    exact ⟨rfl, by simp⟩
  | cons e es ih =>
    rw [findMatch] at h
    by_cases hm : entryMatches tasks at_ e
    · rw [if_pos hm] at h
      simp at h
    · rw [if_neg hm] at h
      rcases hfm : findMatch tasks at_ es with ⟨temp', mo⟩
      rw [hfm] at h
      simp only [Prod.mk.injEq] at h
      obtain ⟨htemp, hmo⟩ := h
      subst hmo
      obtain ⟨hte, hall⟩ := ih hfm
      subst hte
      refine ⟨htemp.symm, ?_⟩
      intro x hx
      rcases List.mem_cons.mp hx with hx | hx
      · subst hx
        simpa using hm
      · exact hall x hx

theorem findMatch_some {tasks : List (Nat × Task)} {at_ : String}
    {l temp rest : List (Nat × Nat)} {e : Nat × Nat}
    (h : findMatch tasks at_ l = (temp, some (e, rest))) :
    l = temp ++ e :: rest ∧ entryMatches tasks at_ e = true ∧
      ∀ x ∈ temp, entryMatches tasks at_ x = false := by
  induction l generalizing temp with
  | nil => simp [findMatch] at h
  | cons a as ih =>
    rw [findMatch] at h
    by_cases hm : entryMatches tasks at_ a
    · rw [if_pos hm] at h
      simp only [Prod.mk.injEq, Option.some.injEq] at h
      obtain ⟨h1, h2, h3⟩ := h
      subst h1
      rw [← h2, ← h3]
      exact ⟨rfl, hm, by simp⟩
    · rw [if_neg hm] at h
      rcases hfm : findMatch tasks at_ as with ⟨temp', mo⟩
      rw [hfm] at h
      simp only [Prod.mk.injEq] at h
      obtain ⟨htemp, hmo⟩ := h
      subst hmo
      obtain ⟨has, hme, hall⟩ := ih hfm
      subst htemp
      refine ⟨by rw [has]; rfl, hme, ?_⟩
      intro x hx
      rcases List.mem_cons.mp hx with hx | hx
      · subst hx
        simpa using hm
      · exact hall x hx

theorem findMatch_of_first {tasks : List (Nat × Task)} {at_ : String}
    {pre post : List (Nat × Nat)} {e : Nat × Nat}
    (hme : entryMatches tasks at_ e = true)
    (hall : ∀ x ∈ pre, entryMatches tasks at_ x = false) :
    findMatch tasks at_ (pre ++ e :: post) = (pre, some (e, post)) := by
  induction pre with
  | nil => simp [findMatch, hme]
  | cons a as ih =>
    have ha : entryMatches tasks at_ a = false := hall a (by simp)
    rw [List.cons_append, findMatch, if_neg (by simp [ha])]
    rw [ih (fun x hx => hall x (by simp [hx]))]

/-- `max_concurrent` is never changed by any operation. -/
theorem stepQ_maxConcurrent (q : TaskQueue) (op : QOp) :
    (stepQ q op).maxConcurrent = q.maxConcurrent := by
  cases op with
  | enqueue tt at_ pr mr => rfl
  | dequeue at_ =>
    rw [stepQ, TaskQueue.dequeue]
    split
    · rfl
    · rcases hfm : findMatch q.tasks at_ q.queue with ⟨temp, mo⟩
      rcases mo with _ | ⟨e, rest⟩ <;> rfl
  | start id =>
    rw [stepQ, TaskQueue.start_task]
    split <;> rfl
  | complete id =>
    rw [stepQ, TaskQueue.complete_task]
    split <;> rfl
  | fail id err =>
    rw [stepQ, TaskQueue.fail_task]
    split
    · rcases hlk : lookupTask q.tasks id with _ | t
      · rfl
      · dsimp only
        split <;> rfl
    · rfl

theorem runQ_maxConcurrent (q : TaskQueue) (ops : List QOp) :
    (runQ q ops).maxConcurrent = q.maxConcurrent := by
  induction ops generalizing q with
  | nil => rfl
  | cons op ops ih => rw [runQ, List.foldl_cons, ← runQ, ih, stepQ_maxConcurrent]

/-- Dequeue returns `None` at once when the active table is at capacity. -/
theorem dequeue_none_of_full {q : TaskQueue} {at_ : String}
    (h : q.maxConcurrent ≤ q.active.length) : (q.dequeue at_).1 = none := by
  rw [TaskQueue.dequeue, if_pos h]

/-- C1: over every sequence of enqueue/dequeue/start/complete/fail
operations, the number of tasks simultaneously in ASSIGNED or IN_PROGRESS
status never exceeds `max_concurrent`, and `dequeue` returns `None` whenever
the number of ASSIGNED/IN_PROGRESS tasks is at or above the ceiling. -/
theorem taskQueue_concurrency_ceiling (m : Nat) (ops : List QOp) (agent_type : String) :
    countAIP (runQ (TaskQueue.init m) ops) ≤ m ∧
    (m ≤ countAIP (runQ (TaskQueue.init m) ops) →
      ((runQ (TaskQueue.init m) ops).dequeue agent_type).1 = none) := by
  have inv := invQ_run (invQ_init m) ops
  have hle : countAIP (runQ (TaskQueue.init m) ops) ≤
      (runQ (TaskQueue.init m) ops).active.length := countAIP_le_active inv
  have hmc : (runQ (TaskQueue.init m) ops).maxConcurrent = m :=
    runQ_maxConcurrent (TaskQueue.init m) ops
  constructor
  · exact le_trans hle (le_trans inv.activeLen (le_of_eq hmc))
  · intro hcnt
    exact dequeue_none_of_full (by omega)

/-- Witness for C1 at a concrete input: with `max_concurrent = 1`, after one
task is enqueued and dequeued the active count is at the ceiling and a further
dequeue returns `None`. -/
theorem taskQueue_concurrency_ceiling_witness :
    1 ≤ countAIP (runQ (TaskQueue.init 1)
      [QOp.enqueue "t" "x" TaskPriority.medium 3, QOp.dequeue "x"]) ∧
    ((runQ (TaskQueue.init 1)
      [QOp.enqueue "t" "x" TaskPriority.medium 3, QOp.dequeue "x"]).dequeue "x").1 = none :=
  ⟨by decide,
   (taskQueue_concurrency_ceiling 1
     [QOp.enqueue "t" "x" TaskPriority.medium 3, QOp.dequeue "x"] "x").2 (by decide)⟩

theorem lookupTask_cons (p : Nat × Task) (ps : List (Nat × Task)) (id : Nat) :
    lookupTask (p :: ps) id = if p.1 = id then some p.2 else lookupTask ps id := by
  rw [lookupTask, List.find?_cons]
  by_cases h : p.1 = id
  · simp [h]
  · simp [h, lookupTask]

theorem lookupTask_mem {ts : List (Nat × Task)} {id : Nat} {t : Task}
    (h : lookupTask ts id = some t) : (id, t) ∈ ts := by
  induction ts with
  | nil => simp [lookupTask] at h
  | cons p ps ih =>
    rw [lookupTask_cons] at h
    by_cases hk : p.1 = id
    · rw [if_pos hk] at h
      simp only [Option.some.injEq] at h
      have hp : p = (id, t) := by
        cases p with
        | mk a b =>
          simp at hk h
          simp [hk, h]
      rw [← hp]
      exact List.mem_cons_self p ps
    · rw [if_neg hk] at h
      exact List.mem_cons_of_mem _ (ih h)

theorem lookupTask_append_of_some {ts : List (Nat × Task)} {id : Nat} {t : Task}
    (h : lookupTask ts id = some t) (l : List (Nat × Task)) :
    lookupTask (ts ++ l) id = some t := by
  induction ts with
  | nil => simp [lookupTask] at h
  | cons p ps ih =>
    rw [List.cons_append, lookupTask_cons]
    rw [lookupTask_cons] at h
    by_cases hk : p.1 = id
    · rwa [if_pos hk] at h ⊢
    · rw [if_neg hk] at h ⊢
      exact ih h

theorem lookupTask_updateTask_self {ts : List (Nat × Task)} {id : Nat}
    {t : Task} (f : Task → Task) (h : lookupTask ts id = some t) :
    lookupTask (updateTask ts id f) id = some (f t) := by
  induction ts with
  | nil => simp [lookupTask] at h
  | cons p ps ih =>
    rw [lookupTask_cons] at h
    rw [updateTask, List.map_cons, ← updateTask]
    by_cases hk : p.1 = id
    · rw [if_pos hk] at h
      rw [if_pos hk, lookupTask_cons, if_pos hk]
      simp at h
      rw [h]
    · rw [if_neg hk] at h
      rw [if_neg hk, lookupTask_cons, if_neg hk]
      exact ih h

theorem lookupTask_updateTask_ne {ts : List (Nat × Task)} {id id' : Nat}
    (f : Task → Task) (h : id ≠ id') :
    lookupTask (updateTask ts id' f) id = lookupTask ts id := by
  induction ts with
  | nil => rfl
  | cons p ps ih =>
    rw [updateTask, List.map_cons, ← updateTask]
    by_cases hk : p.1 = id'
    · rw [if_pos hk, lookupTask_cons, lookupTask_cons]
      have : ¬ p.1 = id := by rw [hk]; exact fun hc => h hc.symm
      rw [if_neg this, if_neg (by simpa using this)]
      exact ih
    · rw [if_neg hk, lookupTask_cons, lookupTask_cons]
      by_cases hk2 : p.1 = id
      · rw [if_pos hk2, if_pos hk2]
      · rw [if_neg hk2, if_neg hk2]
        exact ih

theorem deadTask_dequeue_ne {q : TaskQueue} {id : Nat} (hd : deadTask q id)
    (at_ : String) : (q.dequeue at_).1 ≠ some id := by
  obtain ⟨⟨t, hlk, hst⟩, hna, hlt⟩ := hd
  rw [TaskQueue.dequeue]
  split
  · simp
  · rcases hfm : findMatch q.tasks at_ q.queue with ⟨temp, mo⟩
    rcases mo with _ | ⟨e, rest⟩
    · simp
    · dsimp only
      intro hc
      simp only [Option.some.injEq] at hc
      obtain ⟨_, hme, _⟩ := findMatch_some hfm
      rw [entryMatches, hc, hlk] at hme
      simp [hst] at hme

theorem deadTask_step {q : TaskQueue} {id : Nat} (hd : deadTask q id)
    (op : QOp) : deadTask (stepQ q op) id := by
  obtain ⟨⟨t, hlk, hst⟩, hna, hlt⟩ := hd
  cases op with
  | enqueue tt at_ pr mr =>
    refine ⟨⟨t, ?_, hst⟩, hna, Nat.lt_succ_of_lt hlt⟩
    exact lookupTask_append_of_some hlk _
  | dequeue at_ =>
    rw [stepQ, TaskQueue.dequeue]
    split
    · exact ⟨⟨t, hlk, hst⟩, hna, hlt⟩
    · rcases hfm : findMatch q.tasks at_ q.queue with ⟨temp, mo⟩
      rcases mo with _ | ⟨e, rest⟩
      · exact ⟨⟨t, hlk, hst⟩, hna, hlt⟩
      · dsimp only
        have hne : id ≠ e.2 := by
          intro hc
          obtain ⟨_, hme, _⟩ := findMatch_some hfm
          rw [entryMatches, ← hc, hlk] at hme
          simp [hst] at hme
        refine ⟨⟨t, ?_, hst⟩, ?_, hlt⟩
        · rw [lookupTask_updateTask_ne _ hne]
          exact hlk
        · intro hc
          rcases mem_dictInsert.mp hc with hc | hc
          · exact hne hc
          · exact hna hc
  | start id' =>
    rw [stepQ, TaskQueue.start_task]
    split
    · rename_i hact
      have hne : id ≠ id' := fun hc => hna (hc ▸ hact)
      refine ⟨⟨t, ?_, hst⟩, hna, hlt⟩
      rw [lookupTask_updateTask_ne _ hne]
      exact hlk
    · exact ⟨⟨t, hlk, hst⟩, hna, hlt⟩
  | complete id' =>
    rw [stepQ, TaskQueue.complete_task]
    split
    · rename_i hact
      have hne : id ≠ id' := fun hc => hna (hc ▸ hact)
      refine ⟨⟨t, ?_, hst⟩, ?_, hlt⟩
      · rw [lookupTask_updateTask_ne _ hne]
        exact hlk
      · intro hc
        exact hna (mem_filter_ne.mp hc).1
    · exact ⟨⟨t, hlk, hst⟩, hna, hlt⟩
  | fail id' err =>
    rw [stepQ, TaskQueue.fail_task]
    split
    · rename_i hact
      have hne : id ≠ id' := fun hc => hna (hc ▸ hact)
      rcases hlk' : lookupTask q.tasks id' with _ | t'
      · exact ⟨⟨t, hlk, hst⟩, hna, hlt⟩
      · dsimp only
        split
        · refine ⟨⟨t, ?_, hst⟩, hna, hlt⟩
          rw [lookupTask_updateTask_ne _ hne]
          exact hlk
        · refine ⟨⟨t, ?_, hst⟩, ?_, hlt⟩
          · rw [lookupTask_updateTask_ne _ hne]
            exact hlk
          · intro hc
            exact hna (mem_filter_ne.mp hc).1
    · exact ⟨⟨t, hlk, hst⟩, hna, hlt⟩

theorem deadTask_run {q : TaskQueue} {id : Nat} (hd : deadTask q id)
    (ops : List QOp) : deadTask (runQ q ops) id := by
  induction ops generalizing q with
  | nil => exact hd
  | cons op ops ih => exact ih (deadTask_step hd op)

/-- C2: in any reachable state, failing an active task increments its retry
count; while the incremented count is below `max_retries` the task is reset
to PENDING with its assignment cleared and re-queued with its stored (never
mutated) priority; once the count reaches `max_retries` the task is FAILED,
leaves the active set, is not re-queued by the failing call, and in every
later state it is still FAILED and never returned by `dequeue`. -/
theorem fail_task_retry_bound (m : Nat) (ops : List QOp) (id : Nat)
    (err : String) (t : Task)
    (hlk : lookupTask (runQ (TaskQueue.init m) ops).tasks id = some t)
    (hact : id ∈ (runQ (TaskQueue.init m) ops).active) :
    ∃ t', lookupTask ((runQ (TaskQueue.init m) ops).fail_task id err).2.tasks id
        = some t' ∧
      t'.retry_count = t.retry_count + 1 ∧
      t'.priority = t.priority ∧
      t'.max_retries = t.max_retries ∧
      (t.retry_count + 1 < t.max_retries →
        t'.status = TaskStatus.pending ∧ t'.assigned_to = none ∧
        ((runQ (TaskQueue.init m) ops).fail_task id err).2.queue =
          (runQ (TaskQueue.init m) ops).queue ++ [(t.priority.value, id)] ∧
        id ∈ ((runQ (TaskQueue.init m) ops).fail_task id err).2.active) ∧
      (t.max_retries ≤ t.retry_count + 1 →
        t'.status = TaskStatus.failed ∧
        id ∉ ((runQ (TaskQueue.init m) ops).fail_task id err).2.active ∧
        ((runQ (TaskQueue.init m) ops).fail_task id err).2.queue =
          (runQ (TaskQueue.init m) ops).queue ∧
        ∀ ops' : List QOp,
          (∀ s, lookupTask
              (runQ ((runQ (TaskQueue.init m) ops).fail_task id err).2 ops').tasks id
              = some s → s.status = TaskStatus.failed) ∧
          ∀ at_ : String,
            ((runQ ((runQ (TaskQueue.init m) ops).fail_task id err).2 ops').dequeue
              at_).1 ≠ some id) := by
  have inv := invQ_run (invQ_init m) ops
  have hidlt : id < (runQ (TaskQueue.init m) ops).nextId :=
    inv.keysLt (id, t) (lookupTask_mem hlk)
  rw [TaskQueue.fail_task, if_pos hact, hlk]
  dsimp only
  by_cases hrc : t.retry_count + 1 < t.max_retries
  · rw [if_pos hrc]
    dsimp only
    refine ⟨_, lookupTask_updateTask_self _ hlk, rfl, rfl, rfl, ?_, ?_⟩
    · intro _
      exact ⟨rfl, rfl, rfl, hact⟩
    · intro hc
      omega
  · rw [if_neg hrc]
    dsimp only
    refine ⟨_, lookupTask_updateTask_self _ hlk, rfl, rfl, rfl, ?_, ?_⟩
    · intro hc
      omega
    · intro _
      have hdead :
          deadTask
            { runQ (TaskQueue.init m) ops with
              tasks := updateTask (runQ (TaskQueue.init m) ops).tasks id
                (fun _ =>
                  { t with
                    status := TaskStatus.failed
                    error := some err
                    retry_count := t.retry_count + 1 })
              active := (runQ (TaskQueue.init m) ops).active.filter
                (fun x => x ≠ id) }
            id := by
        unfold deadTask
        dsimp only
        refine ⟨⟨_, lookupTask_updateTask_self _ hlk, ?_⟩, ?_, hidlt⟩
        · rfl
        · intro hc
          exact absurd rfl (mem_filter_ne.mp hc).2
      refine ⟨rfl, ?_, rfl, ?_⟩
      · intro hc
        exact absurd rfl (mem_filter_ne.mp hc).2
      · intro ops'
        have hd := deadTask_run hdead ops'
        obtain ⟨⟨s, hs, hsf⟩, _, _⟩ := hd
        constructor
        · intro s' hs'
          rw [hs] at hs'
          simp only [Option.some.injEq] at hs'
          rw [← hs']
          exact hsf
        · intro at_
          exact deadTask_dequeue_ne (deadTask_run hdead ops') at_

/-- Witness for C2 at a concrete input: with `max_retries = 1`, one failure
of the dequeued task makes it terminally FAILED and inactive. -/
theorem fail_task_retry_bound_witness :
    (0 ∈ (runQ (TaskQueue.init 5)
      [QOp.enqueue "t" "x" TaskPriority.medium 1, QOp.dequeue "x"]).active) ∧
    ∃ t', lookupTask ((runQ (TaskQueue.init 5)
        [QOp.enqueue "t" "x" TaskPriority.medium 1, QOp.dequeue "x"]).fail_task
          0 "e").2.tasks 0 = some t' ∧
      t'.retry_count = 1 ∧ t'.status = TaskStatus.failed := by
  have h := fail_task_retry_bound 5
    [QOp.enqueue "t" "x" TaskPriority.medium 1, QOp.dequeue "x"] 0 "e"
    { task_id := 0, task_type := "t", agent_type := "x",
      priority := TaskPriority.medium, status := TaskStatus.assigned,
      assigned_to := some "x", error := none, retry_count := 0,
      max_retries := 1 }
    (by decide) (by decide)
  obtain ⟨t', hlk, hrc, _, _, _, hterm⟩ := h
  exact ⟨by decide, t', hlk, hrc, (hterm (by decide)).1⟩

theorem findMatch_all_none {tasks : List (Nat × Task)} {at_ : String}
    {l : List (Nat × Nat)} (h : ∀ e ∈ l, entryMatches tasks at_ e = false) :
    findMatch tasks at_ l = (l, none) := by
  induction l with
  | nil => rfl
  | cons e es ih =>
    rw [findMatch, if_neg (by simp [h e (by simp)])]
    rw [ih (fun x hx => h x (by simp [hx]))]

/-- C3 (amended): below the concurrency ceiling, `dequeue` returns the first
entry of the waiting queue (in current queue order) whose task is PENDING
and of the requested agent type; the scanned-but-unmatched prefix keeps its
relative order among itself but is re-appended *behind* the unscanned
suffix; when nothing matches the queue is left unchanged. -/
theorem dequeue_scan_order (q : TaskQueue) (at_ : String)
    (hcap : q.active.length < q.maxConcurrent) :
    ((∀ e ∈ q.queue, entryMatches q.tasks at_ e = false) →
      (q.dequeue at_).1 = none ∧ (q.dequeue at_).2.queue = q.queue) ∧
    (∀ pre e post, q.queue = pre ++ e :: post →
      entryMatches q.tasks at_ e = true →
      (∀ x ∈ pre, entryMatches q.tasks at_ x = false) →
      (q.dequeue at_).1 = some e.2 ∧ (q.dequeue at_).2.queue = post ++ pre) := by
  constructor
  · intro hall
    rw [TaskQueue.dequeue, if_neg (not_le.mpr hcap), findMatch_all_none hall]
    exact ⟨rfl, rfl⟩
  · intro pre e post hsplit hme hpre
    rw [TaskQueue.dequeue, if_neg (not_le.mpr hcap), hsplit,
      findMatch_of_first hme hpre]
    exact ⟨rfl, rfl⟩

/-- Witness for the amended C3 at a concrete input: with queue
`[task 0 (x), task 1 (y), task 2 (x)]`, a dequeue for `y` returns task 1 and
leaves the queue as `[task 2, task 0]` - the scanned entry for task 0 is
re-appended behind task 2. -/
theorem dequeue_scan_order_witness :
    ((runQ (TaskQueue.init 5)
      [QOp.enqueue "t" "x" TaskPriority.medium 3,
       QOp.enqueue "t" "y" TaskPriority.medium 3,
       QOp.enqueue "t" "x" TaskPriority.medium 3]).dequeue "y").1 = some 1 ∧
    ((runQ (TaskQueue.init 5)
      [QOp.enqueue "t" "x" TaskPriority.medium 3,
       QOp.enqueue "t" "y" TaskPriority.medium 3,
       QOp.enqueue "t" "x" TaskPriority.medium 3]).dequeue "y").2.queue =
      [(2, 2), (2, 0)] := by
  have h := (dequeue_scan_order (runQ (TaskQueue.init 5)
    [QOp.enqueue "t" "x" TaskPriority.medium 3,
     QOp.enqueue "t" "y" TaskPriority.medium 3,
     QOp.enqueue "t" "x" TaskPriority.medium 3]) "y" (by decide)).2
    [(2, 0)] (2, 1) [(2, 2)] (by decide) (by decide) (by decide)
  exact h

/-- C3 as stated is false: tasks 0 and 2 are enqueued for agent type `x`
with equal priority (task 0 first); after an interleaved dequeue for agent
type `y`, a dequeue for `x` returns task 2 although task 0 is still waiting
and PENDING - the put-back moved task 0 behind task 2. -/
theorem dequeue_fifo_counterexample :
    ((runQ (TaskQueue.init 5)
      [QOp.enqueue "t" "x" TaskPriority.medium 3,
       QOp.enqueue "t" "y" TaskPriority.medium 3,
       QOp.enqueue "t" "x" TaskPriority.medium 3,
       QOp.dequeue "y"]).dequeue "x").1 = some 2 ∧
    (lookupTask (runQ (TaskQueue.init 5)
      [QOp.enqueue "t" "x" TaskPriority.medium 3,
       QOp.enqueue "t" "y" TaskPriority.medium 3,
       QOp.enqueue "t" "x" TaskPriority.medium 3,
       QOp.dequeue "y"]).tasks 0).map Task.agent_type = some "x" ∧
    (lookupTask (runQ (TaskQueue.init 5)
      [QOp.enqueue "t" "x" TaskPriority.medium 3,
       QOp.enqueue "t" "y" TaskPriority.medium 3,
       QOp.enqueue "t" "x" TaskPriority.medium 3,
       QOp.dequeue "y"]).tasks 0).map Task.status = some TaskStatus.pending ∧
    (lookupTask (runQ (TaskQueue.init 5)
      [QOp.enqueue "t" "x" TaskPriority.medium 3,
       QOp.enqueue "t" "y" TaskPriority.medium 3,
       QOp.enqueue "t" "x" TaskPriority.medium 3,
       QOp.dequeue "y"]).tasks 0).map Task.priority = some TaskPriority.medium ∧
    (lookupTask (runQ (TaskQueue.init 5)
      [QOp.enqueue "t" "x" TaskPriority.medium 3,
       QOp.enqueue "t" "y" TaskPriority.medium 3,
       QOp.enqueue "t" "x" TaskPriority.medium 3,
       QOp.dequeue "y"]).tasks 2).map Task.agent_type = some "x" ∧
    (lookupTask (runQ (TaskQueue.init 5)
      [QOp.enqueue "t" "x" TaskPriority.medium 3,
       QOp.enqueue "t" "y" TaskPriority.medium 3,
       QOp.enqueue "t" "x" TaskPriority.medium 3,
       QOp.dequeue "y"]).tasks 2).map Task.priority = some TaskPriority.medium := by
  decide

/-- C9: a task failed onto the retry path stays in `_active_tasks` while
PENDING (the active set is unchanged), so it still occupies a concurrency
slot; consequently (concrete instance) `dequeue` returns `None` even though
strictly fewer than `max_concurrent` tasks are ASSIGNED or IN_PROGRESS. -/
theorem retried_task_still_active (m : Nat) (ops : List QOp) (id : Nat)
    (err : String) (t : Task)
    (hlk : lookupTask (runQ (TaskQueue.init m) ops).tasks id = some t)
    (hact : id ∈ (runQ (TaskQueue.init m) ops).active)
    (hretry : t.retry_count + 1 < t.max_retries) :
    ((∃ t', lookupTask ((runQ (TaskQueue.init m) ops).fail_task id err).2.tasks id
        = some t' ∧ t'.status = TaskStatus.pending) ∧
      ((runQ (TaskQueue.init m) ops).fail_task id err).2.active =
        (runQ (TaskQueue.init m) ops).active) ∧
    (countAIP (runQ (TaskQueue.init 1)
        [QOp.enqueue "t" "x" TaskPriority.medium 3, QOp.dequeue "x",
         QOp.fail 0 "e"]) <
      (runQ (TaskQueue.init 1)
        [QOp.enqueue "t" "x" TaskPriority.medium 3, QOp.dequeue "x",
         QOp.fail 0 "e"]).maxConcurrent ∧
      ((runQ (TaskQueue.init 1)
        [QOp.enqueue "t" "x" TaskPriority.medium 3, QOp.dequeue "x",
         QOp.fail 0 "e"]).dequeue "x").1 = none) := by
  constructor
  · rw [TaskQueue.fail_task, if_pos hact, hlk]
    dsimp only
    rw [if_pos (by omega)]
    dsimp only
    refine ⟨⟨_, lookupTask_updateTask_self _ hlk, ?_⟩, rfl⟩
    rfl
  · exact ⟨by decide, by decide⟩

/-- Witness for C9 at a concrete input: the task dequeued by agent type `x`
and failed with `max_retries = 3` goes back to PENDING but keeps its
concurrency slot. -/
theorem retried_task_still_active_witness :
    (0 ∈ (runQ (TaskQueue.init 1)
      [QOp.enqueue "t" "x" TaskPriority.medium 3, QOp.dequeue "x"]).active) ∧
    ((∃ t', lookupTask ((runQ (TaskQueue.init 1)
        [QOp.enqueue "t" "x" TaskPriority.medium 3, QOp.dequeue "x"]).fail_task
          0 "e").2.tasks 0 = some t' ∧ t'.status = TaskStatus.pending) ∧
      ((runQ (TaskQueue.init 1)
        [QOp.enqueue "t" "x" TaskPriority.medium 3, QOp.dequeue "x"]).fail_task
          0 "e").2.active =
        (runQ (TaskQueue.init 1)
          [QOp.enqueue "t" "x" TaskPriority.medium 3, QOp.dequeue "x"]).active) := by
  have h := retried_task_still_active 1
    [QOp.enqueue "t" "x" TaskPriority.medium 3, QOp.dequeue "x"] 0 "e"
    { task_id := 0, task_type := "t", agent_type := "x",
      priority := TaskPriority.medium, status := TaskStatus.assigned,
      assigned_to := some "x", error := none, retry_count := 0,
      max_retries := 3 }
    (by decide) (by decide) (by decide)
  exact ⟨by decide, h.1⟩

theorem subscribers_keys_nodup (ops : List BOp) :
    ((runB ops).subscribers.map Prod.fst).Nodup := by
  suffices h : ∀ bus : MessageBus, (bus.subscribers.map Prod.fst).Nodup →
      ∀ ops : List BOp,
        (((ops.foldl stepB bus).subscribers.map Prod.fst)).Nodup by
    exact h MessageBus.init (by simp [MessageBus.init]) ops
  intro bus hnd ops
  induction ops generalizing bus with
  | nil => exact hnd
  | cons op ops ih =>
    rw [List.foldl_cons]
    refine ih _ ?_
    cases op with
    | subscribe a h =>
      rw [stepB, subscribeMB]
      split
      · have : ((bus.subscribers.map
            (fun p => if p.1 = a then (p.1, p.2 ++ [h]) else p)).map Prod.fst)
            = bus.subscribers.map Prod.fst := by
          rw [List.map_map]
          refine List.map_congr_left ?_
          intro p _
          by_cases hp : p.1 = a <;> simp [hp]
        rw [this]
        exact hnd
      · rename_i hna
        rw [List.map_append]
        refine hnd.append (List.nodup_singleton _) ?_
        intro x hx hx'
        simp only [List.map_cons, List.map_nil, List.mem_singleton] at hx'
        subst hx'
        rw [List.mem_map] at hx
        obtain ⟨p, hp, hpa⟩ := hx
        rw [List.any_eq_true] at hna
        exact hna ⟨p, hp, by simp [hpa]⟩
    | unsubscribe a h =>
      rw [stepB, unsubscribeMB]
      split
      · have : ((bus.subscribers.map
            (fun p => if p.1 = a then (p.1, p.2.erase h) else p)).map Prod.fst)
            = bus.subscribers.map Prod.fst := by
          rw [List.map_map]
          refine List.map_congr_left ?_
          intro p _
          by_cases hp : p.1 = a <;> simp [hp]
        rw [this]
        exact hnd
      · exact hnd

theorem handlersOf_mem {bus : MessageBus} {p : String × List Nat}
    (hnd : (bus.subscribers.map Prod.fst).Nodup) (hp : p ∈ bus.subscribers) :
    handlersOf bus p.1 = p.2 := by
  rw [handlersOf]
  rcases hf : bus.subscribers.find? (fun q => q.1 = p.1) with _ | q
  · exfalso
    have := List.find?_eq_none.mp hf p hp
    simp at this
  · have hq1 : q.1 = p.1 := by
      have := List.find?_some hf
      simpa using this
    have hqmem : q ∈ bus.subscribers := List.mem_of_find?_eq_some hf
    have : q = p := by
      have hinj := List.inj_on_of_nodup_map hnd
      exact hinj hqmem hp hq1
    rw [hf, this]

theorem mem_broadcastDeliver_key {bus : MessageBus}
    {l : List (String × List Nat)} {x : String × Nat}
    (hx : x ∈ broadcastDeliver bus l) : x.1 ∈ l.map Prod.fst := by
  induction l with
  | nil => simp [broadcastDeliver] at hx
  | cons p ps ih =>
    rw [broadcastDeliver] at hx
    rcases List.mem_append.mp hx with hx | hx
    · rw [deliverTo, List.mem_map] at hx
      obtain ⟨h, _, rfl⟩ := hx
      simp
    · simp [ih hx]

theorem filter_broadcastDeliver (bus : MessageBus) (a : String)
    (l : List (String × List Nat)) (hnd : (l.map Prod.fst).Nodup) :
    (broadcastDeliver bus l).filter (fun q => q.1 = a) =
      (match l.find? (fun p => p.1 = a) with
        | some _ => deliverTo bus a
        | none => []) := by
  induction l with
  | nil => rfl
  | cons p ps ih =>
    rw [broadcastDeliver, List.filter_append, List.find?_cons]
    rw [List.map_cons, List.nodup_cons] at hnd
    by_cases hp : p.1 = a
    · have hd : (decide (p.1 = a)) = true := by simp [hp]
      rw [hd]
      dsimp only
      have h1 : (deliverTo bus p.1).filter (fun q => q.1 = a) = deliverTo bus a := by
        rw [hp, deliverTo]
        rw [List.filter_map]
        congr 1
        rw [List.filter_eq_self.mpr]
        intro h _
        simp
      have h2 : (broadcastDeliver bus ps).filter (fun q => q.1 = a) = [] := by
        rw [List.filter_eq_nil_iff]
        intro x hx
        have := mem_broadcastDeliver_key hx
        simp only [decide_eq_true_eq]
        intro hxa
        exact hnd.1 (by rw [hp, ← hxa]; exact this)
      rw [h1, h2, List.append_nil]
    · have hd : (decide (p.1 = a)) = false := by simp [hp]
      rw [hd]
      dsimp only
      have h1 : (deliverTo bus p.1).filter (fun q => q.1 = a) = [] := by
        rw [List.filter_eq_nil_iff]
        intro x hx
        rw [deliverTo, List.mem_map] at hx
        obtain ⟨h, _, rfl⟩ := hx
        simp [hp]
      rw [h1, List.nil_append]
      exact ih hnd.2

/-- C4: a broadcast publish (no receiver) invokes, for every agent id, its
registered handlers exactly in registration order (so every handler of every
subscribed agent id, the sender included, exactly once); a publish with a
receiver invokes only that receiver's handlers. -/
theorem publish_fanout (ops : List BOp) (a r : String) :
    ((publishTrace (runB ops) none).filter (fun q => q.1 = a) =
      (handlersOf (runB ops) a).map (fun h => (a, h))) ∧
    (publishTrace (runB ops) (some r) =
      (handlersOf (runB ops) r).map (fun h => (r, h))) ∧
    ((handlersOf (runB ops) a).Nodup → ∀ h ∈ handlersOf (runB ops) a,
      (publishTrace (runB ops) none).count (a, h) = 1) := by
  have hnd := subscribers_keys_nodup ops
  have hfilter : (publishTrace (runB ops) none).filter (fun q => q.1 = a) =
      (handlersOf (runB ops) a).map (fun h => (a, h)) := by
    rw [publishTrace, filter_broadcastDeliver _ _ _ hnd]
    rcases hf : (runB ops).subscribers.find? (fun p => p.1 = a) with _ | p
    · rw [handlersOf, hf]
      rfl
    · rw [deliverTo, handlersOf, hf]
  refine ⟨hfilter, ?_, ?_⟩
  · rw [publishTrace]
    split
    · rw [deliverTo]
    · rename_i hna
      rw [handlersOf]
      rcases hf : (runB ops).subscribers.find? (fun p => p.1 = r) with _ | p
      · simp [hf]
      · exfalso
        apply hna
        rw [List.any_eq_true]
        have hps := List.find?_some hf
        exact ⟨p, List.mem_of_find?_eq_some hf, hps⟩
  · intro hhnd h hh
    have h1 : ((publishTrace (runB ops) none).filter
        (fun q => q.1 = a)).count (a, h) = (publishTrace (runB ops) none).count (a, h) :=
      List.count_filter (by simp)
    rw [← h1, hfilter]
    have h2 : ∀ hs : List Nat,
        (hs.map (fun x => (a, x))).count (a, h) = hs.count h := by
      intro hs
      induction hs with
      | nil => rfl
      | cons x xs ih =>
        simp only [List.map_cons, List.count_cons, ih]
        by_cases hxh : x = h <;> simp [hxh]
    rw [h2]
    exact List.nodup_iff_count_eq_one.mp hhnd h hh

/-- Witness for C4 at a concrete input: agents `alice` (handlers 0 and 2, in
that order) and `bob` (handler 1); the broadcast trace restricted to `alice`
is `[(alice, 0), (alice, 2)]`, a direct publish to `bob` invokes only
handler 1, and handler 0 is invoked exactly once. -/
theorem publish_fanout_witness :
    ((publishTrace (runB [BOp.subscribe "alice" 0, BOp.subscribe "bob" 1,
        BOp.subscribe "alice" 2]) none).filter (fun q => q.1 = "alice") =
      [("alice", 0), ("alice", 2)]) ∧
    (publishTrace (runB [BOp.subscribe "alice" 0, BOp.subscribe "bob" 1,
        BOp.subscribe "alice" 2]) (some "bob") = [("bob", 1)]) ∧
    (publishTrace (runB [BOp.subscribe "alice" 0, BOp.subscribe "bob" 1,
        BOp.subscribe "alice" 2]) none).count ("alice", 0) = 1 := by
  have h := publish_fanout [BOp.subscribe "alice" 0, BOp.subscribe "bob" 1,
    BOp.subscribe "alice" 2] "alice" "bob"
  refine ⟨?_, ?_, ?_⟩
  · rw [h.1]
    decide
  · rw [h.2.1]
    decide
  · exact h.2.2 (by decide) 0 (by decide)

/-- C6: in a sequential pipeline each agent observes the previous result
under the `input_key` wrapping rule (truthy key wraps, mappings pass
through, other values are coerced to `{"input": v}`); after a successful
agent the remaining pipeline continues from exactly that result; on success
`final_result` is the last step result (the initial input for an empty
pipeline); an agent error is returned as-is, with no envelope built and
without consulting the remaining agents. -/
theorem sequential_pipeline_spec :
    (∀ (k : String) (cur : Val), k ≠ "" →
      wrapInput (some k) cur = Val.dict [(k, cur)]) ∧
    (∀ xs : List (String × Val), wrapInput none (Val.dict xs) = Val.dict xs) ∧
    (∀ cur : Val, (∀ xs, cur ≠ Val.dict xs) →
      wrapInput none cur = Val.dict [("input", cur)]) ∧
    (∀ (a : Agent) (k : Option String) (rest : List (Agent × Option String))
        (cur r : Val), a.process (wrapInput k cur) = Except.ok r →
      execSeqFrom ((a, k) :: rest) cur =
        match execSeqFrom rest r with
        | Except.error e => Except.error e
        | Except.ok (recs, fin) =>
          Except.ok ({ agent := a.name, result := r } :: recs, fin)) ∧
    (∀ (steps : List (Agent × Option String)) (cur : Val)
        (recs : List StepRec) (fin : Val),
      execSeqFrom steps cur = Except.ok (recs, fin) →
      recs.length = steps.length ∧
      fin = (recs.map StepRec.result).getLastD cur) ∧
    (∀ (a : Agent) (k : Option String) (cur : Val) (e : String)
        (rest : List (Agent × Option String)),
      a.process (wrapInput k cur) = Except.error e →
      execute_sequential ((a, k) :: rest) cur = Except.error e) := by
  refine ⟨?_, ?_, ?_, ?_, ?_, ?_⟩
  · intro k cur hk
    rw [wrapInput, if_neg hk]
  · intro xs
    rfl
  · intro cur hcur
    rw [wrapInput]
    cases cur with
    | dict xs => exact absurd rfl (hcur xs)
    | null => rfl
    | bool b => rfl
    | int n => rfl
    | str s => rfl
    | list xs => rfl
  · intro a k rest cur r hr
    rw [execSeqFrom, hr]
  · intro steps
    induction steps with
    | nil =>
      intro cur recs fin h
      rw [execSeqFrom] at h
      simp only [Except.ok.injEq, Prod.mk.injEq] at h
      obtain ⟨h1, h2⟩ := h
      subst h1
      subst h2
      exact ⟨rfl, rfl⟩
    | cons s rest ih =>
      intro cur recs fin h
      obtain ⟨a, k⟩ := s
      rw [execSeqFrom] at h
      rcases hp : a.process (wrapInput k cur) with e | r
      · rw [hp] at h
        simp at h
      · rw [hp] at h
        dsimp only at h
        rcases hrest : execSeqFrom rest r with e | pr
        · rw [hrest] at h
          simp at h
        · obtain ⟨recs', fin'⟩ := pr
          rw [hrest] at h
          simp only [Except.ok.injEq, Prod.mk.injEq] at h
          obtain ⟨h1, h2⟩ := h
          subst h2
          obtain ⟨ihlen, ihfin⟩ := ih r recs' fin' hrest
          subst h1
          refine ⟨by simp [ihlen], ?_⟩
          rw [List.map_cons, List.getLastD_cons]
          exact ihfin
  · intro a k cur e rest hp
    rw [execute_sequential, execSeqFrom, hp]

/-- Witness for C6 at a concrete input: a two-step pipeline where the first
agent returns `1` and the second echoes its observed input; the second
agent observes `{"k2": 1}` and `final_result` equals the last step result. -/
theorem sequential_pipeline_spec_witness :
    (wrapInput (some "k2") (Val.int 1) = Val.dict [("k2", Val.int 1)]) ∧
    execSeqFrom
      [({ name := "a1", process := fun _ => Except.ok (Val.int 1) },
        some "k1"),
       ({ name := "a2", process := fun v => Except.ok v }, some "k2")]
      (Val.int 0) =
      Except.ok
        ([{ agent := "a1", result := Val.int 1 },
          { agent := "a2", result := Val.dict [("k2", Val.int 1)] }],
         Val.dict [("k2", Val.int 1)]) ∧
    (execute_sequential
      [({ name := "a1", process := fun _ => Except.error "boom" }, none)]
      (Val.int 0) = Except.error "boom") := by
  refine ⟨sequential_pipeline_spec.1 "k2" (Val.int 1) (by decide), rfl, ?_⟩
  exact sequential_pipeline_spec.2.2.2.2.2
    { name := "a1", process := fun _ => Except.error "boom" } none
    (Val.int 0) "boom" [] rfl

theorem partitionResults_lengths (rs : List (Agent × Except String Val)) :
    (partitionResults rs).1.length + (partitionResults rs).2.length = rs.length := by
  induction rs with
  | nil => rfl
  | cons p rest ih =>
    obtain ⟨a, res⟩ := p
    cases res with
    | ok r =>
      rw [partitionResults]
      dsimp only
      simp only [List.length_cons]
      omega
    | error e =>
      rw [partitionResults]
      dsimp only
      simp only [List.length_cons]
      omega

theorem partitionResults_mem_ok {rs : List (Agent × Except String Val)}
    {a : Agent} {r : Val} (h : (a, Except.ok r) ∈ rs) :
    ({ agent := a.name, result := r } : StepRec) ∈ (partitionResults rs).1 := by
  induction rs with
  | nil => simp at h
  | cons p rest ih =>
    rcases List.mem_cons.mp h with hp | hp
    · rw [← hp, partitionResults]
      exact List.mem_cons_self _ _
    · obtain ⟨a', res'⟩ := p
      cases res' with
      | ok r' =>
        rw [partitionResults]
        exact List.mem_cons_of_mem _ (ih hp)
      | error e' =>
        rw [partitionResults]
        exact ih hp

theorem partitionResults_mem_error {rs : List (Agent × Except String Val)}
    {a : Agent} {e : String} (h : (a, Except.error e) ∈ rs) :
    ({ agent := a.name, error := e } : FailRec) ∈ (partitionResults rs).2 := by
  induction rs with
  | nil => simp at h
  | cons p rest ih =>
    rcases List.mem_cons.mp h with hp | hp
    · rw [← hp, partitionResults]
      exact List.mem_cons_self _ _
    · obtain ⟨a', res'⟩ := p
      cases res' with
      | ok r' =>
        rw [partitionResults]
        exact ih hp
      | error e' =>
        rw [partitionResults]
        exact List.mem_cons_of_mem _ (ih hp)

theorem partitionResults_ok_src {rs : List (Agent × Except String Val)}
    {sr : StepRec} (h : sr ∈ (partitionResults rs).1) :
    ∃ p ∈ rs, p.1.name = sr.agent ∧ p.2 = Except.ok sr.result := by
  induction rs with
  | nil => simp [partitionResults] at h
  | cons p rest ih =>
    obtain ⟨a, res⟩ := p
    cases res with
    | ok r =>
      rw [partitionResults] at h
      rcases List.mem_cons.mp h with hp | hp
      · exact ⟨(a, Except.ok r), List.mem_cons_self _ _, by rw [hp], by rw [hp]⟩
      · obtain ⟨q, hq, hq1, hq2⟩ := ih hp
        exact ⟨q, List.mem_cons_of_mem _ hq, hq1, hq2⟩
    | error e =>
      rw [partitionResults] at h
      obtain ⟨q, hq, hq1, hq2⟩ := ih h
      exact ⟨q, List.mem_cons_of_mem _ hq, hq1, hq2⟩

theorem partitionResults_error_src {rs : List (Agent × Except String Val)}
    {fr : FailRec} (h : fr ∈ (partitionResults rs).2) :
    ∃ p ∈ rs, p.1.name = fr.agent ∧ p.2 = Except.error fr.error := by
  induction rs with
  | nil => simp [partitionResults] at h
  | cons p rest ih =>
    obtain ⟨a, res⟩ := p
    cases res with
    | ok r =>
      rw [partitionResults] at h
      obtain ⟨q, hq, hq1, hq2⟩ := ih h
      exact ⟨q, List.mem_cons_of_mem _ hq, hq1, hq2⟩
    | error e =>
      rw [partitionResults] at h
      rcases List.mem_cons.mp h with hp | hp
      · exact ⟨(a, Except.error e), List.mem_cons_self _ _, by rw [hp], by rw [hp]⟩
      · obtain ⟨q, hq, hq1, hq2⟩ := ih hp
        exact ⟨q, List.mem_cons_of_mem _ hq, hq1, hq2⟩

/-- C7: the parallel envelope partitions the branches exactly - every
branch outcome lands in `successful` or `failed` (the counts add up to the
number of branches); each branch that returns normally contributes its
result record to `successful` and each branch that raises contributes an
(agent, error) record to `failed`, independently of every other branch;
and every record of either list comes from a corresponding branch. -/
theorem parallel_partition_spec (agents : List Agent) (inputs : List Val) :
    ((execute_parallel agents inputs).successful.length +
      (execute_parallel agents inputs).failed.length =
        (agents.zip inputs).length) ∧
    (∀ p ∈ agents.zip inputs,
      (∀ r, p.1.process p.2 = Except.ok r →
        ({ agent := p.1.name, result := r } : StepRec) ∈
          (execute_parallel agents inputs).successful) ∧
      (∀ e, p.1.process p.2 = Except.error e →
        ({ agent := p.1.name, error := e } : FailRec) ∈
          (execute_parallel agents inputs).failed)) ∧
    (∀ sr ∈ (execute_parallel agents inputs).successful,
      ∃ p ∈ agents.zip inputs, p.1.name = sr.agent ∧
        p.1.process p.2 = Except.ok sr.result) ∧
    (∀ fr ∈ (execute_parallel agents inputs).failed,
      ∃ p ∈ agents.zip inputs, p.1.name = fr.agent ∧
        p.1.process p.2 = Except.error fr.error) := by
  refine ⟨?_, ?_, ?_, ?_⟩
  · rw [execute_parallel]
    dsimp only
    rw [partitionResults_lengths, List.length_map]
  · intro p hp
    constructor
    · intro r hr
      apply partitionResults_mem_ok
      rw [List.mem_map]
      exact ⟨p, hp, by rw [hr]⟩
    · intro e he
      apply partitionResults_mem_error
      rw [List.mem_map]
      exact ⟨p, hp, by rw [he]⟩
  · intro sr hsr
    obtain ⟨q, hq, hq1, hq2⟩ := partitionResults_ok_src hsr
    rw [List.mem_map] at hq
    obtain ⟨p, hp, hpq⟩ := hq
    refine ⟨p, hp, ?_, ?_⟩
    · rw [← hq1, ← hpq]
    · rw [← hq2, ← hpq]
  · intro fr hfr
    obtain ⟨q, hq, hq1, hq2⟩ := partitionResults_error_src hfr
    rw [List.mem_map] at hq
    obtain ⟨p, hp, hpq⟩ := hq
    refine ⟨p, hp, ?_, ?_⟩
    · rw [← hq1, ← hpq]
    · rw [← hq2, ← hpq]

/-- Witness for C7 at a concrete input: two branches, one returning `7` and
one raising `"err"`; the envelope holds exactly one success and one failure
record. -/
theorem parallel_partition_spec_witness :
    ((execute_parallel
        [{ name := "g", process := fun _ => Except.ok (Val.int 7) },
         { name := "b", process := fun _ => Except.error "err" }]
        [Val.null, Val.null]).successful.length +
      (execute_parallel
        [{ name := "g", process := fun _ => Except.ok (Val.int 7) },
         { name := "b", process := fun _ => Except.error "err" }]
        [Val.null, Val.null]).failed.length = 2) ∧
    ({ agent := "g", result := Val.int 7 } : StepRec) ∈
      (execute_parallel
        [{ name := "g", process := fun _ => Except.ok (Val.int 7) },
         { name := "b", process := fun _ => Except.error "err" }]
        [Val.null, Val.null]).successful ∧
    ({ agent := "b", error := "err" } : FailRec) ∈
      (execute_parallel
        [{ name := "g", process := fun _ => Except.ok (Val.int 7) },
         { name := "b", process := fun _ => Except.error "err" }]
        [Val.null, Val.null]).failed := by
  have h := parallel_partition_spec
    [{ name := "g", process := fun _ => Except.ok (Val.int 7) },
     { name := "b", process := fun _ => Except.error "err" }]
    [Val.null, Val.null]
  refine ⟨h.1, ?_, ?_⟩
  · exact (h.2.1 ({ name := "g", process := fun _ => Except.ok (Val.int 7) },
      Val.null) (by simp)).1 (Val.int 7) rfl
  · exact (h.2.1 ({ name := "b", process := fun _ => Except.error "err" },
      Val.null) (by simp)).2 "err" rfl

theorem foldlBest_mem (t : List IterRec) : ∀ h : IterRec,
    t.foldl (fun acc e => if acc.quality_score < e.quality_score then e else acc) h
      ∈ h :: t := by
  induction t with
  | nil => intro h; simp
  | cons e es ih =>
    intro h
    rw [List.foldl_cons]
    rcases List.mem_cons.mp
        (ih (if h.quality_score < e.quality_score then e else h)) with h1 | h1
    · rw [h1]
      by_cases hq : h.quality_score < e.quality_score
      · rw [if_pos hq]
        exact List.mem_cons_of_mem _ (List.mem_cons_self _ _)
      · rw [if_neg hq]
        exact List.mem_cons_self _ _
    · exact List.mem_cons_of_mem _ (List.mem_cons_of_mem _ h1)

theorem foldlBest_max (t : List IterRec) : ∀ h : IterRec, ∀ x ∈ h :: t,
    x.quality_score ≤
      (t.foldl (fun acc e => if acc.quality_score < e.quality_score then e else acc)
        h).quality_score := by
  induction t with
  | nil =>
    intro h x hx
    rcases List.mem_cons.mp hx with hx | hx
    · rw [hx]
      exact le_refl _
    · simp at hx
  | cons e es ih =>
    intro h x hx
    rw [List.foldl_cons]
    have hstep : ∀ y : IterRec, y = h ∨ y = e →
        y.quality_score ≤
          (if h.quality_score < e.quality_score then e else h).quality_score := by
      intro y hy
      by_cases hq : h.quality_score < e.quality_score
      · rw [if_pos hq]
        rcases hy with hy | hy
        · rw [hy]; exact le_of_lt hq
        · rw [hy]
      · rw [if_neg hq]
        rcases hy with hy | hy
        · rw [hy]
        · rw [hy]; exact le_of_not_lt hq
    rcases List.mem_cons.mp hx with hx | hx
    · exact le_trans (hstep x (Or.inl hx))
        (ih _ _ (List.mem_cons_self _ _))
    · rcases List.mem_cons.mp hx with hx | hx
      · exact le_trans (hstep x (Or.inr hx))
          (ih _ _ (List.mem_cons_self _ _))
      · exact ih _ _ (List.mem_cons_of_mem _ hx)

theorem bestIter_mem (h : IterRec) (t : List IterRec) : bestIter h t ∈ h :: t :=
  foldlBest_mem t h

theorem bestIter_max (h : IterRec) (t : List IterRec) : ∀ x ∈ h :: t,
    x.quality_score ≤ (bestIter h t).quality_score :=
  foldlBest_max t h

theorem loopGo_spec (agent : LoopInput → Nat → Val)
    (critic : Val → Nat → CriticOutput) (threshold : Rat) (maxIter : Nat) :
    ∀ (fuel iter : Nat) (cur : LoopInput) (hist : List IterRec),
    iter + fuel = maxIter →
    hist.length = iter →
    hist.map IterRec.iteration = List.range' 1 iter →
    (∀ e ∈ hist, accepts threshold e = false) →
    1 ≤ maxIter →
    ∃ res, loopGo agent critic threshold maxIter fuel iter cur hist = some res ∧
      res.history.length = res.iterations ∧
      res.iterations ≤ maxIter ∧
      res.history.map IterRec.iteration = List.range' 1 res.iterations ∧
      (res.warning = false →
        ∃ hne : res.history ≠ [],
          accepts threshold (res.history.getLast hne) = true ∧
          (∀ e ∈ res.history.dropLast, accepts threshold e = false) ∧
          res.final_result = (res.history.getLast hne).agent_result ∧
          res.final_quality = (res.history.getLast hne).quality_score) ∧
      (res.warning = true →
        res.iterations = maxIter ∧
        (∀ e ∈ res.history, accepts threshold e = false) ∧
        ∃ b ∈ res.history, res.final_result = b.agent_result ∧
          res.final_quality = b.quality_score ∧
          ∀ e ∈ res.history, e.quality_score ≤ b.quality_score) := by
  intro fuel
  induction fuel with
  | zero =>
    intro iter cur hist hsum hlen hrange hall hpos
    rcases hhist : hist with _ | ⟨h0, t0⟩
    · exfalso
      rw [hhist] at hlen
      simp at hlen
      omega
    · rw [loopGo]
      refine ⟨_, rfl, ?_, ?_, ?_, ?_, ?_⟩
      · try dsimp only
        rw [← hhist, hlen]
        omega
      · exact le_refl maxIter
      · try dsimp only
        rw [← hhist, hrange]
        have : iter = maxIter := by omega
        rw [this]
      · intro hw
        simp at hw
      · intro _
        refine ⟨rfl, ?_, ?_⟩
        · try dsimp only
          rw [← hhist]
          exact hall
        · refine ⟨bestIter h0 t0, ?_, rfl, rfl, ?_⟩
          · try dsimp only
            exact bestIter_mem h0 t0
          · try dsimp only
            exact bestIter_max h0 t0
  | succ fuel ih =>
    intro iter cur hist hsum hlen hrange hall hpos
    rw [loopGo]
    try dsimp only
    by_cases hacc : ((critic (agent cur iter) iter).is_valid &&
        decide (threshold ≤
          avgQuality (critic (agent cur iter) iter).quality_scores)) = true
    · rw [if_pos hacc]
      refine ⟨_, rfl, ?_, ?_, ?_, ?_, ?_⟩
      · simp [hlen]
      · try dsimp only
        omega
      · try dsimp only
        rw [List.map_append, hrange, List.map_cons, List.map_nil]
        rw [List.range'_concat]
        simp [Nat.add_comm]
      · intro _
        have hne : hist ++
            [({ iteration := iter + 1, agent_result := agent cur iter,
                quality_score := avgQuality (critic (agent cur iter) iter).quality_scores,
                is_valid := (critic (agent cur iter) iter).is_valid } : IterRec)] ≠ [] := by
          simp
        refine ⟨hne, ?_, ?_, ?_, ?_⟩
        · rw [List.getLast_concat]
          rw [accepts]
          exact hacc
        · rw [List.dropLast_concat]
          exact hall
        · rw [List.getLast_concat]
        · rw [List.getLast_concat]
      · intro hw
        simp at hw
    · rw [if_neg hacc]
      exact ih (iter + 1) _ (hist ++ [_]) (by omega) (by simp [hlen])
        (by
          rw [List.map_append, hrange, List.map_cons, List.map_nil]
          rw [List.range'_concat]
          simp [Nat.add_comm])
        (by
          intro e he
          rcases List.mem_append.mp he with he | he
          · exact hall e he
          · rw [List.mem_singleton] at he
            rw [he, accepts]
            exact Bool.not_eq_true _ ▸ (by simpa using hacc))
        hpos

/-- C5 (amended, requires `max_iterations ≥ 1`): the loop executes at most
`max_iterations` iterations with a history entry (numbered 1, 2, ...) per
executed iteration; it returns without the warning exactly when the last
executed iteration is valid with mean quality at or above the threshold and
every earlier iteration is not; with the warning it has run all
`max_iterations` iterations, none accepted, and the final result and
quality are those of a maximal-quality history entry. -/
theorem loop_pattern_spec (agent : LoopInput → Nat → Val)
    (critic : Val → Nat → CriticOutput) (threshold : Rat) (maxIter : Nat)
    (hpos : 1 ≤ maxIter) :
    ∃ res, execute_loop agent critic threshold maxIter = some res ∧
      res.history.length = res.iterations ∧
      res.iterations ≤ maxIter ∧
      res.history.map IterRec.iteration = List.range' 1 res.iterations ∧
      (res.warning = false →
        ∃ hne : res.history ≠ [],
          accepts threshold (res.history.getLast hne) = true ∧
          (∀ e ∈ res.history.dropLast, accepts threshold e = false) ∧
          res.final_result = (res.history.getLast hne).agent_result ∧
          res.final_quality = (res.history.getLast hne).quality_score) ∧
      (res.warning = true →
        res.iterations = maxIter ∧
        (∀ e ∈ res.history, accepts threshold e = false) ∧
        ∃ b ∈ res.history, res.final_result = b.agent_result ∧
          res.final_quality = b.quality_score ∧
          ∀ e ∈ res.history, e.quality_score ≤ b.quality_score) :=
  loopGo_spec agent critic threshold maxIter maxIter 0 LoopInput.initial []
    (by omega) rfl rfl (by simp) hpos

/-- Witness for the amended C5 at a concrete input: three iterations with a
critic that always scores 1/2 against threshold 9/10. -/
theorem loop_pattern_spec_witness :
    (1 : Nat) ≤ 3 ∧
    ∃ res, execute_loop (fun _ _ => Val.int 0)
        (fun _ _ => { quality_scores := [1/2], is_valid := true,
                      recommendations := Val.null }) (9/10) 3 = some res ∧
      res.history.length = res.iterations ∧ res.iterations ≤ 3 := by
  refine ⟨by omega, ?_⟩
  obtain ⟨res, h1, h2, h3, _⟩ := loop_pattern_spec (fun _ _ => Val.int 0)
    (fun _ _ => { quality_scores := [1/2], is_valid := true,
                  recommendations := Val.null }) (9/10) 3 (by omega)
  exact ⟨res, h1, h2, h3⟩

/-- C5 as universally stated is false at `max_iterations = 0`: the loop body
never runs, and instead of an envelope with `iterations = 0` and the warning
tag, `execute_loop` raises (`max()` of the empty history; modelled as
`none`). -/
theorem loop_pattern_zero_counterexample :
    execute_loop (fun _ _ => Val.int 0)
      (fun _ _ => { quality_scores := [], is_valid := false,
                    recommendations := Val.null }) 0 0 = none := rfl

theorem assocGet_assocSet_self {α : Type} (l : List (String × α)) (k : String)
    (v : α) : assocGet (assocSet l k v) k = some v := by
  rw [assocSet]
  by_cases hany : l.any (fun p => p.1 = k) = true
  · rw [if_pos hany]
    induction l with
    | nil => simp at hany
    | cons p ps ih =>
      rw [List.map_cons, assocGet, List.find?_cons]
      by_cases hp : p.1 = k
      · rw [if_pos hp]
        simp
      · rw [if_neg hp]
        have hd : (decide (p.1 = k)) = false := by simp [hp]
        rw [hd]
        have hany' : ps.any (fun p => p.1 = k) = true := by
          rcases List.any_eq_true.mp hany with ⟨q, hq, hqk⟩
          rcases List.mem_cons.mp hq with hq | hq
          · exfalso
            rw [hq] at hqk
            simp at hqk
            exact hp hqk
          · exact List.any_eq_true.mpr ⟨q, hq, hqk⟩
        have := ih hany'
        rw [assocGet] at this
        exact this
  · rw [if_neg hany]
    have hnone : ∀ p ∈ l, (decide (p.1 = k)) = false := by
      intro p hp
      by_contra hc
      simp only [decide_eq_false_iff_not, not_not] at hc
      exact hany (List.any_eq_true.mpr ⟨p, hp, by simp [hc]⟩)
    induction l with
    | nil => simp [assocGet]
    | cons p ps ih =>
      rw [List.cons_append, assocGet, List.find?_cons, hnone p (by simp)]
      have := ih (by
          intro hc
          exact hany (by
            rw [List.any_cons]
            simp only [hc]
            simp))
        (fun q hq => hnone q (List.mem_cons_of_mem _ hq))
      rw [assocGet] at this
      exact this

theorem assocGet_none_of_absent {α : Type} {l : List (String × α)} {k : String}
    (h : ∀ p ∈ l, p.1 ≠ k) : assocGet l k = none := by
  induction l with
  | nil => rfl
  | cons p ps ih =>
    rw [assocGet, List.find?_cons]
    have hd : (decide (p.1 = k)) = false := by simp [h p (by simp)]
    rw [hd]
    have := ih (fun q hq => h q (List.mem_cons_of_mem _ hq))
    rw [assocGet] at this
    exact this

/-- C8: `set_state` then `get_state` returns the stored value; the same
holds after reloading the snapshot written by the store; a never-set key
returns the caller-supplied default, and so does a deleted key. -/
theorem state_get_set_roundtrip (sm : StateManager) (k : String) (v d : Val)
    (now : String) :
    get_state (set_state sm k v now) k d = v ∧
    get_state (loadState (snapshot (set_state sm k v now))) k d = v ∧
    ((∀ p ∈ sm.state, p.1 ≠ k) → get_state sm k d = d) ∧
    get_state (delete_state sm k) k d = d := by
  have hset : get_state (set_state sm k v now) k d = v := by
    rw [get_state, set_state]
    dsimp only
    rw [assocGet_assocSet_self]
  refine ⟨hset, hset, ?_, ?_⟩
  · intro habs
    rw [get_state, assocGet_none_of_absent habs]
  · rw [delete_state]
    by_cases hany : sm.state.any (fun p => p.1 = k) = true
    · rw [if_pos hany, get_state]
      dsimp only
      rw [assocGet_none_of_absent (by
        intro p hp
        have := List.mem_filter.mp hp
        simpa using this.2)]
    · rw [if_neg hany, get_state]
      rw [assocGet_none_of_absent (by
        intro p hp hc
        exact hany (List.any_eq_true.mpr ⟨p, hp, by simp [hc]⟩))]

/-- Witness for C8 at a concrete input. -/
theorem state_get_set_roundtrip_witness :
    get_state (set_state StateManager.fresh "k" (Val.int 7) "t0") "k" Val.null
      = Val.int 7 ∧
    get_state (loadState (snapshot
      (set_state StateManager.fresh "k" (Val.int 7) "t0"))) "k" Val.null
      = Val.int 7 ∧
    get_state StateManager.fresh "k" Val.null = Val.null :=
  ⟨(state_get_set_roundtrip StateManager.fresh "k" (Val.int 7) Val.null "t0").1,
   (state_get_set_roundtrip StateManager.fresh "k" (Val.int 7) Val.null "t0").2.1,
   (state_get_set_roundtrip StateManager.fresh "k" (Val.int 7) Val.null "t0").2.2.1
     (by simp [StateManager.fresh])⟩

/-- C10: on a fresh store (no snapshot file) `set_agent_context` succeeds
for every agent id, but after a successful load of a snapshot the
agent-contexts mapping no longer auto-creates entries, so
`set_agent_context` for an agent id absent from the snapshot raises
`KeyError`. -/
theorem agent_context_keyerror (a k : String) (v : Val) (now : String) :
    (set_agent_context StateManager.fresh a k v now).isSome = true ∧
    (∀ sm : StateManager, sm.ctxAuto = true →
      (set_agent_context sm a k v now).isSome = true) ∧
    (∀ d : SavedData, (∀ p ∈ d.agent_contexts, p.1 ≠ a) →
      set_agent_context (loadState d) a k v now = none) := by
  have hauto : ∀ sm : StateManager, sm.ctxAuto = true →
      (set_agent_context sm a k v now).isSome = true := by
    intro sm hsm
    rw [set_agent_context]
    rcases hctx : assocGet sm.agent_contexts a with _ | ctx
    · rw [if_pos hsm]
      rfl
    · rfl
  refine ⟨hauto StateManager.fresh rfl, hauto, ?_⟩
  intro d habs
  rw [set_agent_context]
  have : assocGet (loadState d).agent_contexts a = none :=
    assocGet_none_of_absent habs
  rw [this]
  rw [if_neg (by rw [loadState]; simp)]

/-- Witness for C10 at a concrete input: a snapshot holding only agent
`bob`; writing context for `alice` raises, while the fresh store accepts
any agent id. -/
theorem agent_context_keyerror_witness :
    (set_agent_context StateManager.fresh "alice" "k" Val.null "t0").isSome
      = true ∧
    set_agent_context
      (loadState { state := [], agent_contexts := [("bob", [])],
                   task_states := [] }) "alice" "k" Val.null "t0" = none :=
  ⟨(agent_context_keyerror "alice" "k" Val.null "t0").1,
   (agent_context_keyerror "alice" "k" Val.null "t0").2.2
     { state := [], agent_contexts := [("bob", [])], task_states := [] }
     (by intro p hp; simp at hp; simp [hp])⟩

end ADK

